import Mathlib

/-!
Verification of the client-side data processing pipeline of the mealmosaic
admin tool (source: `src/components/ColumnManager.tsx` (the `CSVViewer`
component), `src/components/CategoryManager.tsx`).

The JavaScript/TypeScript code is shallowly embedded: JS strings are Lean
`String`s manipulated through explicit character-list functions mirroring the
JS string methods used by the source; JS numbers are modelled by `JsNum`
(finite rationals plus the two infinities and NaN), records are association
lists from column name to cell string, and the React `useState` fields that
drive sorting are gathered into an explicit state structure with the event
handlers as state-transition functions.
-/

namespace MealMosaic

/-! ### JS string primitives -/

/-- Whitespace as recognised by JS `trim` / regex `\s` (the characters that
can realistically occur in this data set). -/
def isJsSpace (c : Char) : Bool :=
  c = ' ' || c = '\t' || c = '\n' || c = '\r' || c = '\x0b' || c = '\x0c' ||
  c = '\u00A0' || c = '\uFEFF'

/-- JS `String.prototype.trim` on a character list. -/
def jsTrimChars (l : List Char) : List Char :=
  ((l.dropWhile isJsSpace).reverse.dropWhile isJsSpace).reverse

/-- JS `String.prototype.trim`. -/
def jsTrim (s : String) : String := String.mk (jsTrimChars s.data)

/-- `startsWithL pre l` : `pre` is a prefix of `l` (JS `startsWith`). -/
def startsWithL : List Char → List Char → Bool
  | [], _ => true
  | _ :: _, [] => false
  | a :: as, b :: bs => a = b && startsWithL as bs

/-- JS `s.startsWith(pre)`. -/
def jsStartsWith (s pre : String) : Bool := startsWithL pre.data s.data

/-- `infixOfL pat l` : `pat` occurs contiguously inside `l`
(JS `String.prototype.includes`). -/
def infixOfL (pat : List Char) : List Char → Bool
  | [] => startsWithL pat []
  | c :: rest => startsWithL pat (c :: rest) || infixOfL pat rest

/-- JS `hay.includes(pat)`. -/
def jsIncludes (hay pat : String) : Bool := infixOfL pat.data hay.data

/-- JS `String.prototype.split` with a one-character separator:
`''.split(sep) = ['']`, and every separator occurrence splits. -/
def splitChar (sep : Char) : List Char → List (List Char)
  | [] => [[]]
  | c :: rest =>
    if c = sep then [] :: splitChar sep rest
    else
      match splitChar sep rest with
      | [] => [[c]]
      | g :: gs => (c :: g) :: gs

/-- JS `Array.prototype.join` with a one-character separator. -/
def joinSep (sep : Char) : List (List Char) → List Char
  | [] => []
  | [x] => x
  | x :: y :: ys => x ++ sep :: joinSep sep (y :: ys)

/-- Lower-casing as done by JS `toLowerCase` (ASCII range; the model keeps
other characters unchanged). -/
def jsToLower (s : String) : String := String.mk (s.data.map Char.toLower)

/-! ### JS numbers

JS numbers are IEEE doubles; the pipeline only ever compares, subtracts and
divides values obtained from `parseFloat`, so the model uses exact rationals
for the finite range together with the two infinities and NaN. -/

inductive JsNum where
  | fin (q : ℚ)
  | posInf
  | negInf
  | nan
deriving DecidableEq

namespace JsNum

/-- JS `isNaN` on an already-numeric value. -/
def isNaN : JsNum → Bool
  | nan => true
  | _ => false

/-- JS subtraction `a - b` extended to infinities and NaN. -/
def sub : JsNum → JsNum → JsNum
  | nan, _ => nan
  | _, nan => nan
  | fin a, fin b => fin (a - b)
  | fin _, posInf => negInf
  | fin _, negInf => posInf
  | posInf, fin _ => posInf
  | posInf, posInf => nan
  | posInf, negInf => posInf
  | negInf, fin _ => negInf
  | negInf, posInf => negInf
  | negInf, negInf => nan

/-- JS division `a / b` extended to infinities, NaN and zero divisors. -/
def div : JsNum → JsNum → JsNum
  | nan, _ => nan
  | _, nan => nan
  | fin a, fin b =>
    if b = 0 then (if 0 < a then posInf else if a < 0 then negInf else nan)
    else fin (a / b)
  | fin _, posInf => fin 0
  | fin _, negInf => fin 0
  | posInf, fin b => if b < 0 then negInf else posInf
  | negInf, fin b => if b < 0 then posInf else negInf
  | posInf, posInf => nan
  | posInf, negInf => nan
  | negInf, posInf => nan
  | negInf, negInf => nan

/-- JS `n > 0` (false for NaN). -/
def isPos : JsNum → Bool
  | fin q => 0 < q
  | posInf => true
  | _ => false

/-- JS `n < 0` (false for NaN). -/
def isNeg : JsNum → Bool
  | fin q => q < 0
  | negInf => true
  | _ => false

/-- JS strict equality `n === v` against a finite number `v`
(NaN and the infinities never compare equal). -/
def eqNum (n : JsNum) (v : ℚ) : Bool :=
  match n with
  | fin q => q = v
  | _ => false

/-- JS `n >= v` against a finite bound (false for NaN). -/
def geNum (n : JsNum) (v : ℚ) : Bool :=
  match n with
  | fin q => v ≤ q
  | posInf => true
  | _ => false

/-- JS `n <= v` against a finite bound (false for NaN). -/
def leNum (n : JsNum) (v : ℚ) : Bool :=
  match n with
  | fin q => q ≤ v
  | negInf => true
  | _ => false

end JsNum

/-! ### `parseFloat` -/

/-- Numeric value of a digit run (most significant first). -/
def digitsToNat (ds : List Char) : ℕ :=
  ds.foldl (fun n c => n * 10 + (c.toNat - '0'.toNat)) 0

/-- Exponent suffix of a `parseFloat` literal: an `e`/`E`, an optional sign
and at least one digit; anything else is ignored (longest-valid-prefix
semantics, so `"1e"` parses as `1`). Returns (negative?, digits). -/
def parseExp (l : List Char) : Bool × List Char :=
  match l with
  | 'e' :: r => parseExpSigned r
  | 'E' :: r => parseExpSigned r
  | _ => (false, [])
where
  parseExpSigned (r : List Char) : Bool × List Char :=
    match r with
    | '+' :: r' => (false, r'.takeWhile Char.isDigit)
    | '-' :: r' => (true, r'.takeWhile Char.isDigit)
    | _ => (false, r.takeWhile Char.isDigit)

/-- Body of `parseFloat` after whitespace and sign: `Infinity`, or an
integer/fraction digit sequence with optional exponent; NaN when no digit is
found. Trailing garbage is ignored. -/
def parseFloatCore (l : List Char) (neg : Bool) : JsNum :=
  if startsWithL "Infinity".data l then
    if neg then JsNum.negInf else JsNum.posInf
  else
    let d1 := l.takeWhile Char.isDigit
    let r1 := l.dropWhile Char.isDigit
    let fr : List Char × List Char :=
      match r1 with
      | '.' :: r => (r.takeWhile Char.isDigit, r.dropWhile Char.isDigit)
      | _ => ([], r1)
    let d2 := fr.1
    if d1.isEmpty && d2.isEmpty then JsNum.nan
    else
      let mant : ℚ := (digitsToNat (d1 ++ d2) : ℚ) / ((10 : ℚ) ^ d2.length)
      let ex := parseExp fr.2
      let e := digitsToNat ex.2
      let v : ℚ := if ex.1 then mant / (10 : ℚ) ^ e else mant * (10 : ℚ) ^ e
      JsNum.fin (if neg then -v else v)

/-- JS `parseFloat` on a string: skip leading whitespace, optional sign,
then the longest valid numeric prefix. -/
def parseFloatJs (s : String) : JsNum :=
  match s.data.dropWhile isJsSpace with
  | '+' :: r => parseFloatCore r false
  | '-' :: r => parseFloatCore r true
  | l => parseFloatCore l false

/-- `parseFloat(row[column])` when the cell may be absent:
`parseFloat(undefined)` is NaN. -/
def parseFloatOpt : Option String → JsNum
  | none => JsNum.nan
  | some s => parseFloatJs s

/-! ### Records and cell access -/

/-- One CSV row: a JS object mapping raw column name to cell string,
modelled as an ordered association list. -/
abbrev Record := List (String × String)

/-- `row[column]` : property lookup, `undefined` when absent. -/
def getCell (r : Record) (c : String) : Option String :=
  (r.find? (fun p => p.1 == c)).map (fun p => p.2)

/-- The source's `normalizeString`: `''` for null/undefined, else collapse
non-breaking spaces to regular spaces and lower-case. -/
def normalizeString (v : Option String) : String :=
  match v with
  | none => ""
  | some s => jsToLower (String.mk (s.data.map (fun c => if c = '\u00A0' then ' ' else c)))

/-- The source's `normalizeHeader`: strip one leading BOM, then trim. -/
def normalizeHeader (h : String) : String :=
  jsTrim (String.mk (match h.data with
    | '\uFEFF' :: rest => rest
    | l => l))

/-- `value.split('#').map(p => p.trim()).join('#')` : the canonical category
path of a non-empty raw category value. -/
def canonicalizePath (s : String) : String :=
  String.mk (joinSep '#' ((splitChar '#' s.data).map jsTrimChars))

/-- The designated category-path column. -/
def CATEGORY_COLUMN : String := "category"

/-- Canonical category path of a record:
`rawValue ? rawValue.split('#').map(trim).join('#') : ''`
with `rawValue = row[CATEGORY_COLUMN] ?? ''`. -/
def canonCategoryPath (r : Record) : String :=
  match getCell r CATEGORY_COLUMN with
  | none => ""
  | some s => if s = "" then "" else canonicalizePath s

/-- The fixed list of numeric column names. -/
def NUMERIC_COLUMNS : List String :=
  ["pri/we", "pro/cal", "weight", "price", "calories", "proteins", "fats",
   "carbohydrates", "average_rating", "rating_count"]

/-- `columnTypes` as computed per header set: `true` for `'number'`. -/
def computeColumnTypes (headers : List String) : List (String × Bool) :=
  headers.map (fun h => (h, NUMERIC_COLUMNS.contains (normalizeHeader h)))

/-- `columnTypes[column] === 'number'` (`undefined` for unknown columns is
not `'number'`, hence `false`). -/
def lookupType (types : List (String × Bool)) (c : String) : Bool :=
  ((types.find? (fun p => p.1 == c)).map (fun p => p.2)).getD false

/-! ### Column filters -/

/-- A `contains`/`exclude` filter field: either a single string or an array
of pattern strings (both shapes occur in the source). -/
inductive StrPats where
  | one (s : String)
  | many (l : List String)

/-- A per-column filter value, as stored in the `filters` record. -/
inductive ColFilter where
  | equals (value : ℚ)
  | range (min max : Option ℚ)
  | str (contains exclude : Option StrPats)

/-- JS truthiness of a numeric range bound: `null` and `0` are falsy. -/
def boundFalsy : Option ℚ → Bool
  | none => true
  | some q => q = 0

/-- One row's numeric `range` test:
`(!min || value >= min) && (!max || value <= max)` with
`value = parseFloat(row[column])`. -/
def rangeKeep (min max : Option ℚ) (cell : Option String) : Bool :=
  (boundFalsy min || JsNum.geNum (parseFloatOpt cell) (min.getD 0)) &&
  (boundFalsy max || JsNum.leNum (parseFloatOpt cell) (max.getD 0))

/-- One row's numeric `equals` test: `parseFloat(row[column]) === value`. -/
def equalsKeep (v : ℚ) (cell : Option String) : Bool :=
  JsNum.eqNum (parseFloatOpt cell) v

/-- Split on commas that are followed by an even number of quote characters,
the model of the regex `,(?=(?:[^"]*"[^"]*")*[^"]*$)`. -/
def splitTopCommas : List Char → List (List Char)
  | [] => [[]]
  | c :: rest =>
    if c = ',' ∧ (rest.countP (fun d => d == '"')) % 2 = 0 then
      [] :: splitTopCommas rest
    else
      match splitTopCommas rest with
      | [] => [[c]]
      | g :: gs => (c :: g) :: gs

/-- `replace(/^"|"$/g, '')` : drop one leading and one trailing quote. -/
def stripEdgeQuotes (l : List Char) : List Char :=
  let l1 := match l with
    | '"' :: r => r
    | _ => l
  if l1.getLast? = some '"' then l1.dropLast else l1

/-- The `contains` branch of a string filter. -/
def applyContains (col : String) (cv : Option StrPats) (rows : List Record) : List Record :=
  match cv with
  | none => rows
  | some (.one "") => rows
  | some ps =>
    let patterns := match ps with
      | .one s => [s]
      | .many l => l
    let normalized := (patterns.map (fun p => normalizeString (some p))).filter (fun s => s ≠ "")
    if normalized ≠ [] then
      rows.filter (fun r => normalized.all (fun p => jsIncludes (normalizeString (getCell r col)) p))
    else rows

/-- The `exclude` branch of a string filter: an array is used as is, a plain
string is split on top-level commas, trimmed and unquoted. -/
def applyExclude (col : String) (ev : Option StrPats) (rows : List Record) : List Record :=
  match ev with
  | none => rows
  | some (.one "") => rows
  | some v =>
    let patterns := match v with
      | .many l => l
      | .one s => (splitTopCommas s.data).map (fun g => String.mk (stripEdgeQuotes (jsTrimChars g)))
    let normalized := (patterns.map (fun p => normalizeString (some p))).filter (fun s => s ≠ "")
    if normalized ≠ [] then
      rows.filter (fun r => !(normalized.any (fun p => jsIncludes (normalizeString (getCell r col)) p)))
    else rows

/-- Application of one column's filter, dispatching on the column type the
way the `Object.entries(filters).forEach` body does. -/
def applyOneFilter (types : List (String × Bool)) (col : String) (f : ColFilter)
    (rows : List Record) : List Record :=
  if lookupType types col then
    match f with
    | .equals v => rows.filter (fun r => equalsKeep v (getCell r col))
    | .range min max => rows.filter (fun r => rangeKeep min max (getCell r col))
    | .str _ _ => rows
  else
    match f with
    | .str cv ev => applyExclude col ev (applyContains col cv rows)
    | _ => rows

/-! ### Sorting -/

/-- A sort direction. -/
inductive Dir where
  | asc
  | desc
deriving DecidableEq

/-- The comparator's key coercion: `isNaN(v) ? -Infinity : v`. -/
def sortKey (v : JsNum) : JsNum :=
  if v.isNaN then JsNum.negInf else v

/-- `parseFloat(row[col]) || 0` : the value a quoted column reference
contributes to a compiled formula (NaN falls back to `0`). -/
def refValue (r : Record) (col : String) : JsNum :=
  match parseFloatOpt (getCell r col) with
  | JsNum.nan => JsNum.fin 0
  | v => v

/-- The formula-sort comparator: map each side through `sortKey`, subtract,
flip operands for `desc`. -/
def formulaCmp (dir : Dir) (f : Record → JsNum) (a b : Record) : JsNum :=
  match dir with
  | .asc => (sortKey (f a)).sub (sortKey (f b))
  | .desc => (sortKey (f b)).sub (sortKey (f a))

/-- `String(v)` : string coercion of a possibly-undefined cell. -/
def optToString : Option String → String
  | none => "undefined"
  | some s => s

/-- The column comparator: numeric difference when both cells parse, else a
locale-aware string comparison (`localeCompare` is environment-dependent and
therefore a parameter). -/
def columnCmp (localeCmp : String → String → ℤ) (key : String) (dir : Dir)
    (a b : Record) : JsNum :=
  let aCell := getCell a key
  let bCell := getCell b key
  let av := parseFloatOpt aCell
  let bv := parseFloatOpt bCell
  if !av.isNaN && !bv.isNaN then
    match dir with
    | .asc => av.sub bv
    | .desc => bv.sub av
  else
    match dir with
    | .asc => JsNum.fin ((localeCmp (optToString aCell) (optToString bCell) : ℚ))
    | .desc => JsNum.fin ((localeCmp (optToString bCell) (optToString aCell) : ℚ))

/-- `Array.prototype.sort` with a JS comparator: a stable sort that keeps
`a` before `b` unless the comparator is strictly positive (a NaN comparator
result counts as a tie). -/
def jsSortByCmp (cmp : Record → Record → JsNum) (rows : List Record) : List Record :=
  rows.mergeSort (fun a b => !(cmp a b).isPos)

/-- The sorting step of `processedData`: formula sort when a compiled
formula and a formula direction are both active, else the column sort,
else the input order. -/
def sortStage (localeCmp : String → String → ℤ) (formulaFn : Option (Record → JsNum))
    (formulaSortDir : Option Dir) (sortConfig : Option (String × Dir))
    (rows : List Record) : List Record :=
  match formulaFn, formulaSortDir with
  | some f, some dir => jsSortByCmp (formulaCmp dir f) rows
  | _, _ =>
    match sortConfig with
    | some (key, dir) => jsSortByCmp (columnCmp localeCmp key dir) rows
    | none => rows

/-! ### The filter/sort pipeline (`processedData`) -/

/-- Category filter: applied only when some header normalizes to the
category column and at least one category is selected. -/
def categoryStage (headers : List String) (selectedCategories : Finset String)
    (rows : List Record) : List Record :=
  if (headers.any (fun h => normalizeHeader h == CATEGORY_COLUMN)) ∧
      0 < selectedCategories.card then
    rows.filter (fun r => decide (canonCategoryPath r ∈ selectedCategories))
  else rows

/-- Free-text search over the currently visible columns. -/
def searchStage (visibleColumns : List String) (searchQuery : String)
    (rows : List Record) : List Record :=
  if searchQuery = "" then rows
  else
    rows.filter (fun r =>
      visibleColumns.any (fun col =>
        jsIncludes (normalizeString (getCell r col)) (normalizeString (some searchQuery))))

/-- The sentinel value marking "macros unknown" in the calories column. -/
def SENTINEL : ℚ := 100500

/-- Hide-unknown-macros filter: drop rows whose `calories` cell parses to
the sentinel. -/
def sentinelStage (hideUnknownMacros : Bool) (rows : List Record) : List Record :=
  if hideUnknownMacros then
    rows.filter (fun r => !(JsNum.eqNum (parseFloatOpt (getCell r "calories")) SENTINEL))
  else rows

/-- All per-column filters, in entry order. -/
def filtersStage (types : List (String × Bool)) (filters : List (String × ColFilter))
    (rows : List Record) : List Record :=
  filters.foldl (fun acc cf => applyOneFilter types cf.1 cf.2 acc) rows

/-- The view parameters consumed by `processedData`. The compiled formula
(`new Function` in the source) is carried as an opaque evaluation function;
concrete formulas are embedded by writing out their substituted expression
over `refValue`. -/
structure ViewParams where
  selectedCategories : Finset String
  searchQuery : String
  visibleColumns : List String
  hideUnknownMacros : Bool
  filters : List (String × ColFilter)
  sortConfig : Option (String × Dir)
  formulaFn : Option (Record → JsNum)
  formulaSortDir : Option Dir

/-- The `processedData` memo: category filter, search, sentinel filter,
column filters, then sorting. -/
def processedData (localeCmp : String → String → ℤ) (headers : List String)
    (data : List Record) (p : ViewParams) : List Record :=
  if data = [] then []
  else
    sortStage localeCmp p.formulaFn p.formulaSortDir p.sortConfig
      (filtersStage (computeColumnTypes headers) p.filters
        (sentinelStage p.hideUnknownMacros
          (searchStage p.visibleColumns p.searchQuery
            (categoryStage headers p.selectedCategories data))))

/-! ### Pagination -/

/-- `processedData.slice((currentPage - 1) * rowsPerPage, start + rowsPerPage)`
(pages are 1-based; the component keeps `currentPage ≥ 1`). -/
def paginatedData (processed : List Record) (currentPage rowsPerPage : ℕ) : List Record :=
  (processed.drop ((currentPage - 1) * rowsPerPage)).take rowsPerPage

/-- `Math.ceil(processedData.length / rowsPerPage)` for a positive page
size, as a natural-number ceiling division. -/
def totalPages (processed : List Record) (rowsPerPage : ℕ) : ℕ :=
  (processed.length + rowsPerPage - 1) / rowsPerPage

/-! ### Formula validation (`validateAndApplyFormula`) -/

/-- Streaming scanner for the regex `/"([^"]+)"/g`: the first argument is
`none` outside a candidate match and `some buf` (reversed content so far)
after an opening quote. A quote closing a non-empty buffer completes a
match; a quote right after an opening quote emits the first quote and makes
the second the new opening candidate (the regex requires at least one
non-quote character between the quotes); an unclosed opening quote at the
end of input is emitted verbatim. Returns the captured contents in order
and the text with every match removed. -/
def quotedScanAux : Option (List Char) → List Char → List (List Char) × List Char
  | none, [] => ([], [])
  | some buf, [] => ([], '"' :: buf.reverse)
  | none, '"' :: rest => quotedScanAux (some []) rest
  | none, c :: rest =>
    let r := quotedScanAux none rest
    (r.1, c :: r.2)
  | some [], '"' :: rest =>
    let r := quotedScanAux (some []) rest
    (r.1, '"' :: r.2)
  | some (b :: bs), '"' :: rest =>
    let r := quotedScanAux none rest
    ((b :: bs).reverse :: r.1, r.2)
  | some buf, c :: rest => quotedScanAux (some (c :: buf)) rest

/-- The global scan of a formula for quoted column references. -/
def quotedScan (l : List Char) : List (List Char) × List Char :=
  quotedScanAux none l

/-- The quoted column references of a formula, in order of occurrence. -/
def extractQuotedRefs (s : String) : List String :=
  ((quotedScan s.data).1).map String.mk

/-- The formula text with every quoted reference removed
(`formula.replace(/"[^"]+"/g, '')`). -/
def stripQuotedRefs (s : String) : String :=
  String.mk (quotedScan s.data).2

/-- Does the regex `/\s*0(?![0-9])` match at the head of the text? -/
def divZeroAt (l : List Char) : Bool :=
  match l with
  | '/' :: rest =>
    match rest.dropWhile isJsSpace with
    | '0' :: r =>
      match r with
      | [] => true
      | d :: _ => !d.isDigit
    | _ => false
  | _ => false

/-- Global regex search: does `/\s*0(?![0-9])` match anywhere? -/
def hasLiteralDivZero (l : List Char) : Bool :=
  l.tails.any divZeroAt

/-- The division-by-literal-zero rejection test of `validateAndApplyFormula`:
run the regex on the formula with quoted references stripped. -/
def divByZeroCheck (formula : String) : Bool :=
  hasLiteralDivZero (stripQuotedRefs formula).data

/-- The view-state fields owned by the sorting/formula handlers. -/
structure SortFormState where
  formulaInput : String
  appliedFormula : String
  formulaSortDir : Option Dir
  sortConfig : Option (String × Dir)
deriving DecidableEq

/-- The observable outcome of one `validateAndApplyFormula` call (which
toast fires / whether the formula was applied). -/
inductive ApplyOutcome where
  | emptyInput
  | errUnknownCols (cols : List String)
  | errDivZero
  | errSyntax
  | errNaN
  | applied

/-- `validateAndApplyFormula`: trim, check referenced columns against the
raw header list, check for a literal division by zero, compile (the dynamic
`new Function` compilation is the `compile` parameter; `none` models a
synchronous compile exception), smoke-test on the first data row for NaN,
and only then install the formula and clear the formula sort direction. -/
def validateAndApplyFormula (headers : List String) (data : List Record)
    (compile : String → Option (Record → JsNum)) (st : SortFormState) :
    SortFormState × ApplyOutcome :=
  let formula := jsTrim st.formulaInput
  if formula = "" then (st, .emptyInput)
  else
    let missingCols := (extractQuotedRefs formula).filter (fun c => !headers.contains c)
    if missingCols ≠ [] then (st, .errUnknownCols missingCols)
    else if divByZeroCheck formula then (st, .errDivZero)
    else
      match compile formula with
      | none => (st, .errSyntax)
      | some fn =>
        let ok : SortFormState × ApplyOutcome :=
          ({ st with formulaInput := formula, appliedFormula := formula,
                     formulaSortDir := none }, .applied)
        match data with
        | d0 :: _ => if (fn d0).isNaN then (st, .errNaN) else ok
        | [] => ok

/-! ### Category tree and cascading selection -/

/-- A node of the category forest (`CategoryManager.tsx`). -/
inductive CategoryNode where
  | mk (name : String) (path : String) (children : List CategoryNode)

/-- `collectPaths` : depth-first flat list of every path in the forest. -/
def collectPaths : List CategoryNode → List String
  | [] => []
  | .mk _ p cs :: rest => p :: (collectPaths cs ++ collectPaths rest)

/-- The ancestor paths added by `togglePath` when selecting:
`parts.slice(0, i).join('#')` for `1 ≤ i < parts.length`. -/
def properPrefixPaths (path : String) : List String :=
  let parts := splitChar '#' path.data
  ((List.range parts.length).drop 1).map (fun i => String.mk (joinSep '#' (parts.take i)))

/-- `togglePath` of `CategoryManager`: deselecting removes the node and
every listed descendant; selecting adds the node, every listed descendant
and every ancestor path. -/
def togglePath (flatAllPaths : List String) (selected : Finset String)
    (path : String) : Finset String :=
  let descendants := flatAllPaths.filter
    (fun p => p == path || startsWithL (path ++ "#").data p.data)
  if path ∈ selected then
    descendants.foldl (fun s d => s.erase d) selected
  else
    (properPrefixPaths path).foldl (fun s a => insert a s)
      (descendants.foldl (fun s d => insert d s) selected)

/-! ### The sort-state transition system -/

/-- The initial sort/formula view state (`useState` defaults). -/
def initialSortState : SortFormState :=
  { formulaInput := "", appliedFormula := "", formulaSortDir := none, sortConfig := none }

/-- `handleSort`: clear the formula direction; cycle the column sort
ascending, descending, off on the same column, and start ascending on a new
column. -/
def handleSort (column : String) (st : SortFormState) : SortFormState :=
  { st with
    formulaSortDir := none,
    sortConfig :=
      match st.sortConfig with
      | some (key, dir) =>
        if key = column then
          match dir with
          | .asc => some (column, .desc)
          | .desc => none
        else some (column, .asc)
      | none => some (column, .asc) }

/-- `applyFormulaSort`: a no-op without an applied formula; otherwise set
the formula direction and clear the column sort. -/
def applyFormulaSort (dir : Dir) (st : SortFormState) : SortFormState :=
  if jsTrim st.appliedFormula = "" then st
  else { st with formulaSortDir := some dir, sortConfig := none }

/-- `clearFormulaSort`. -/
def clearFormulaSort (st : SortFormState) : SortFormState :=
  { st with formulaSortDir := none }

/-- The sort/formula part of `handleReset`. -/
def resetSortState (_st : SortFormState) : SortFormState :=
  initialSortState

/-- Clicking an entry of the formula-history dropdown:
`setFormulaInput(f); setAppliedFormula(f)` with no validation (the history
is seeded from local storage, so `f` is an arbitrary string); the sort
fields are untouched. -/
def applyHistoryFormula (f : String) (st : SortFormState) : SortFormState :=
  { st with formulaInput := f, appliedFormula := f }

/-- One user interaction mutating the sort/formula state: a column-header
click, the two formula-sort buttons, the clear button, the reset button,
typing in the formula input, applying the formula input, and clicking a
formula-history entry — every `setSortConfig`/`setFormulaSortDir`/
`setAppliedFormula`/`setFormulaInput` call site of the component. -/
inductive SortStep : SortFormState → SortFormState → Prop where
  | sort (column : String) (st : SortFormState) : SortStep st (handleSort column st)
  | formulaSort (dir : Dir) (st : SortFormState) : SortStep st (applyFormulaSort dir st)
  | clearFormula (st : SortFormState) : SortStep st (clearFormulaSort st)
  | reset (st : SortFormState) : SortStep st (resetSortState st)
  | editInput (s : String) (st : SortFormState) : SortStep st { st with formulaInput := s }
  | validate (headers : List String) (data : List Record)
      (compile : String → Option (Record → JsNum)) (st : SortFormState) :
      SortStep st (validateAndApplyFormula headers data compile st).1
  | historyApply (f : String) (st : SortFormState) : SortStep st (applyHistoryFormula f st)

/-- A view state reachable from the initial state by user interactions. -/
def SortReachable (st : SortFormState) : Prop :=
  Relation.ReflTransGen SortStep initialSortState st

/-! ### Helper lemmas -/

theorem startsWithL_iff (pre l : List Char) :
    startsWithL pre l = true ↔ ∃ t, l = pre ++ t := by
  induction pre generalizing l with
  | nil => simp [startsWithL]
  | cons a as ih =>
    cases l with
    | nil => simp [startsWithL]
    | cons b bs =>
      simp only [startsWithL, Bool.and_eq_true, decide_eq_true_eq, ih, List.cons_append,
        List.cons.injEq]
      constructor
      · rintro ⟨rfl, t, rfl⟩
        exact ⟨t, rfl, rfl⟩
      · rintro ⟨t, rfl, rfl⟩
        exact ⟨rfl, t, rfl⟩

theorem startsWithL_length {pre l : List Char} (h : startsWithL pre l = true) :
    pre.length ≤ l.length := by
  obtain ⟨t, rfl⟩ := (startsWithL_iff pre l).1 h
  simp

theorem mem_foldl_insert (l : List String) (s : Finset String) (q : String) :
    q ∈ l.foldl (fun a d => insert d a) s ↔ q ∈ s ∨ q ∈ l := by
  induction l generalizing s with
  | nil => simp
  | cons x xs ih =>
    simp only [List.foldl_cons, ih, Finset.mem_insert, List.mem_cons]
    tauto

theorem mem_foldl_erase (l : List String) (s : Finset String) (q : String) :
    q ∈ l.foldl (fun a d => a.erase d) s ↔ q ∈ s ∧ q ∉ l := by
  induction l generalizing s with
  | nil => simp
  | cons x xs ih =>
    simp only [List.foldl_cons, ih, Finset.mem_erase, List.mem_cons]
    tauto

theorem splitChar_ne_nil (sep : Char) (l : List Char) : splitChar sep l ≠ [] := by
  cases l with
  | nil => simp [splitChar]
  | cons c rest =>
    simp only [splitChar]
    split
    · simp
    · split <;> simp

theorem joinSep_cons_cons (sep : Char) (x : List Char) (y : List Char) (ys : List (List Char)) :
    joinSep sep (x :: y :: ys) = x ++ sep :: joinSep sep (y :: ys) := rfl

theorem joinSep_cons_head (sep : Char) (c : Char) (g : List Char) (gs : List (List Char)) :
    joinSep sep ((c :: g) :: gs) = c :: joinSep sep (g :: gs) := by
  cases gs <;> simp [joinSep]

theorem joinSep_splitChar (sep : Char) (l : List Char) :
    joinSep sep (splitChar sep l) = l := by
  induction l with
  | nil => rfl
  | cons c rest ih =>
    obtain ⟨g, gs, hsp⟩ : ∃ g gs, splitChar sep rest = g :: gs := by
      cases hs : splitChar sep rest with
      | nil => exact absurd hs (splitChar_ne_nil sep rest)
      | cons g gs => exact ⟨g, gs, rfl⟩
    rw [hsp] at ih
    by_cases h : c = sep
    · subst h
      have hh : splitChar c (c :: rest) = [] :: g :: gs := by
        simp [splitChar, hsp]
      rw [hh, joinSep_cons_cons, ih]
      simp
    · have hh : splitChar sep (c :: rest) = (c :: g) :: gs := by
        simp [splitChar, h, hsp]
      rw [hh, joinSep_cons_head, ih]

theorem joinSep_take_length_lt (sep : Char) :
    ∀ (L : List (List Char)) (i : ℕ), 1 ≤ i → i < L.length →
      (joinSep sep (L.take i)).length < (joinSep sep L).length := by
  intro L
  induction L with
  | nil => intro i h1 h2; simp at h2
  | cons x xs ih =>
    intro i h1 h2
    obtain ⟨y, ys, hys⟩ : ∃ y ys, xs = y :: ys := by
      cases xs with
      | nil => simp at h2; omega
      | cons y ys => exact ⟨y, ys, rfl⟩
    subst hys
    match i, h1 with
    | 1, _ =>
      simp only [List.take_one, joinSep, List.head?_cons, Option.toList_some]
      simp [joinSep_cons_cons]
    | (j + 2), _ =>
      have hj1 : 1 ≤ j + 1 := by omega
      have hj2 : j + 1 < (y :: ys).length := by
        simp only [List.length_cons] at h2 ⊢
        omega
      have := ih (j + 1) hj1 hj2
      obtain ⟨z, zs, hzs⟩ : ∃ z zs, (y :: ys).take (j + 1) = z :: zs := by
        cases ht : (y :: ys).take (j + 1) with
        | nil => simp [List.take_eq_nil_iff] at ht
        | cons z zs => exact ⟨z, zs, rfl⟩
      simp only [List.take_succ_cons, hzs, joinSep_cons_cons]
      rw [hzs] at this
      simp only [List.length_append, List.length_cons]
      omega

theorem dropWhile_append_of_all {p : Char → Bool} {ws : List Char}
    (h : ∀ c ∈ ws, p c = true) (r : List Char) :
    List.dropWhile p (ws ++ r) = List.dropWhile p r := by
  induction ws with
  | nil => rfl
  | cons w ws ih =>
    simp only [List.cons_append, List.dropWhile_cons, h w (by simp), if_true]
    exact ih (fun c hc => h c (by simp [hc]))

theorem mem_of_mem_applyContains {col : String} {cv : Option StrPats}
    {rows : List Record} {r : Record} (h : r ∈ applyContains col cv rows) : r ∈ rows := by
  unfold applyContains at h
  repeat' split at h
  any_goals exact h
  all_goals
    simp only at h
    split at h
    · exact (List.mem_filter.1 h).1
    · exact h

theorem mem_of_mem_applyExclude {col : String} {ev : Option StrPats}
    {rows : List Record} {r : Record} (h : r ∈ applyExclude col ev rows) : r ∈ rows := by
  unfold applyExclude at h
  repeat' split at h
  any_goals exact h
  all_goals
    simp only at h
    split at h
    · exact (List.mem_filter.1 h).1
    · exact h

theorem mem_of_mem_applyOneFilter {types : List (String × Bool)} {col : String}
    {f : ColFilter} {rows : List Record} {r : Record}
    (h : r ∈ applyOneFilter types col f rows) : r ∈ rows := by
  unfold applyOneFilter at h
  repeat' split at h
  all_goals first
    | exact h
    | exact (List.mem_filter.1 h).1
    | exact mem_of_mem_applyContains (mem_of_mem_applyExclude h)

theorem mem_of_mem_filtersStage {types : List (String × Bool)}
    {fs : List (String × ColFilter)} {rows : List Record} {r : Record}
    (h : r ∈ filtersStage types fs rows) : r ∈ rows := by
  induction fs generalizing rows with
  | nil => exact h
  | cons cf cfs ih =>
    exact mem_of_mem_applyOneFilter (ih h)

theorem mem_sortStage {localeCmp : String → String → ℤ}
    {formulaFn : Option (Record → JsNum)} {formulaSortDir : Option Dir}
    {sortConfig : Option (String × Dir)} {rows : List Record} {r : Record} :
    r ∈ sortStage localeCmp formulaFn formulaSortDir sortConfig rows ↔ r ∈ rows := by
  unfold sortStage jsSortByCmp
  repeat' split
  all_goals first
    | exact Iff.rfl
    | exact (List.mergeSort_perm rows _).mem_iff

/-! ### Pagination coverage -/

theorem totalPages_nil (ps : ℕ) (hps : 0 < ps) : totalPages ([] : List Record) ps = 0 := by
  unfold totalPages
  simp only [List.length_nil, Nat.zero_add]
  exact Nat.div_eq_of_lt (by omega)

theorem totalPages_cons_drop (l : List Record) (ps : ℕ) (hps : 0 < ps) (hne : l ≠ []) :
    totalPages l ps = totalPages (l.drop ps) ps + 1 := by
  have hlen : 1 ≤ l.length := by
    cases l with
    | nil => exact absurd rfl hne
    | cons a as => simp
  unfold totalPages
  rw [List.length_drop]
  have e1 : l.length + ps - 1 = (l.length - 1) + ps := by omega
  rw [e1, Nat.add_div_right _ hps]
  congr 1
  rcases le_or_lt l.length ps with hle | hlt
  · have h1 : l.length - ps = 0 := by omega
    rw [h1, Nat.div_eq_of_lt (by omega), Nat.div_eq_of_lt (by omega)]
  · have e2 : l.length - ps + ps - 1 = l.length - 1 := by omega
    rw [e2]

theorem paginatedData_succ (l : List Record) (i ps : ℕ) :
    paginatedData l (i + 2) ps = paginatedData (l.drop ps) (i + 1) ps := by
  have h1 : i + 2 - 1 = i + 1 := by omega
  have h2 : i + 1 - 1 = i := by omega
  simp only [paginatedData, h1, h2, List.drop_drop]
  congr 2
  ring

theorem pages_flatten_aux (ps : ℕ) (hps : 0 < ps) :
    ∀ (n : ℕ) (l : List Record), l.length ≤ n →
      ((List.range (totalPages l ps)).map (fun i => paginatedData l (i + 1) ps)).flatten = l := by
  intro n
  induction n with
  | zero =>
    intro l hl
    have : l = [] := List.length_eq_zero.1 (Nat.le_zero.1 hl)
    subst this
    rw [totalPages_nil ps hps]
    simp
  | succ n ih =>
    intro l hl
    by_cases hne : l = []
    · subst hne
      rw [totalPages_nil ps hps]
      simp
    · rw [totalPages_cons_drop l ps hps hne, List.range_succ_eq_map]
      simp only [List.map_cons, List.map_map, List.flatten_cons]
      have hfirst : paginatedData l (0 + 1) ps = l.take ps := by
        simp [paginatedData]
      rw [hfirst]
      have hrest : (List.range (totalPages (l.drop ps) ps)).map
          ((fun i => paginatedData l (i + 1) ps) ∘ Nat.succ) =
          (List.range (totalPages (l.drop ps) ps)).map
            (fun i => paginatedData (l.drop ps) (i + 1) ps) := by
        apply List.map_congr_left
        intro i _
        simpa [Function.comp, Nat.succ_eq_add_one] using paginatedData_succ l i ps
      rw [hrest]
      have hdrop : (l.drop ps).length ≤ n := by
        rw [List.length_drop]
        have : 1 ≤ l.length := by
          cases l with
          | nil => exact absurd rfl hne
          | cons a as => simp
        omega
      rw [ih (l.drop ps) hdrop]
      exact List.take_append_drop ps l

/-- **C9**: for every filtered-and-sorted sequence and every positive page
size, concatenating page 1 through `ceil(total / pageSize)` in order
reproduces the full sequence; an empty filtered set yields zero total pages
and an empty page. -/
theorem pagination_coverage (l : List Record) (pageSize : ℕ) (hps : 0 < pageSize) :
    ((List.range (totalPages l pageSize)).map
        (fun i => paginatedData l (i + 1) pageSize)).flatten = l
    ∧ totalPages ([] : List Record) pageSize = 0
    ∧ (∀ page, paginatedData ([] : List Record) page pageSize = []) := by
  refine ⟨pages_flatten_aux pageSize hps l.length l le_rfl, totalPages_nil pageSize hps, ?_⟩
  intro page
  simp [paginatedData]

/-- Witness for the pagination-coverage theorem at a concrete three-row
sequence with page size 2. -/
theorem pagination_coverage_witness :
    (((List.range (totalPages ([[("price", "1")], [("price", "2")], [("price", "3")]] : List Record) 2)).map
        (fun i => paginatedData [[("price", "1")], [("price", "2")], [("price", "3")]] (i + 1) 2)).flatten
      = [[("price", "1")], [("price", "2")], [("price", "3")]])
    ∧ totalPages ([] : List Record) 2 = 0
    ∧ (∀ page, paginatedData ([] : List Record) page 2 = []) :=
  pagination_coverage [[("price", "1")], [("price", "2")], [("price", "3")]] 2 (by decide)

/-! ### Literal division-by-zero detection (C5) -/

theorem hasLiteralDivZero_iff (l : List Char) :
    hasLiteralDivZero l = true ↔
      ∃ pre ws post, l = pre ++ '/' :: (ws ++ '0' :: post) ∧
        (∀ c ∈ ws, isJsSpace c = true) ∧
        (∀ d rest, post = d :: rest → d.isDigit = false) := by
  unfold hasLiteralDivZero
  rw [List.any_eq_true]
  constructor
  · rintro ⟨t, ht, hdiv⟩
    rw [List.mem_tails] at ht
    obtain ⟨pre, hpre⟩ := ht
    unfold divZeroAt at hdiv
    split at hdiv
    case h_2 => exact absurd hdiv (by simp)
    case h_1 rest =>
      split at hdiv
      case h_2 => exact absurd hdiv (by simp)
      case h_1 r hdrop =>
        refine ⟨pre, rest.takeWhile isJsSpace, r, ?_, ?_, ?_⟩
        · rw [← hpre]
          congr 1
          congr 1
          conv_lhs => rw [← List.takeWhile_append_dropWhile (p := isJsSpace) (l := rest)]
          rw [hdrop]
        · intro c hc
          exact List.mem_takeWhile_imp hc
        · intro d rest' hr
          subst hr
          simpa using hdiv
  · rintro ⟨pre, ws, post, rfl, hws, hpost⟩
    refine ⟨'/' :: (ws ++ '0' :: post), ?_, ?_⟩
    · rw [List.mem_tails]
      exact ⟨pre, rfl⟩
    · have hred : divZeroAt ('/' :: (ws ++ '0' :: post)) =
          (match List.dropWhile isJsSpace (ws ++ '0' :: post) with
            | '0' :: r => (match r with | [] => true | d :: _ => !d.isDigit)
            | _ => false) := rfl
      rw [hred, dropWhile_append_of_all hws]
      have h0 : List.dropWhile isJsSpace ('0' :: post) = '0' :: post := by
        rw [List.dropWhile_cons]
        simp [isJsSpace]
      rw [h0]
      cases post with
      | nil => rfl
      | cons d rest => simpa using hpost d rest rfl

/-- **C5** (counterexample): the check also rejects a division by the
non-zero literal `0.5` — `"x"/0.5` strips to `/0.5`, whose `/0` is followed
by `.`, not a digit, so the regex fires even though the divisor is not the
constant `0`. -/
theorem divzero_check_counterexample :
    divByZeroCheck "\"x\"/0.5" = true ∧ stripQuotedRefs "\"x\"/0.5" = "/0.5" := by
  constructor <;> decide

/-- **C5** (amended): the literal-division-by-zero check rejects a formula
iff the expression with quoted references stripped contains a `/` followed
by optional whitespace and a `0` that is not immediately followed by another
digit. This catches `"x"/0` but also any divisor literal whose integer part
is a lone `0` (such as `0.5`); divisions by literals like `05` or by
computed values are not rejected. -/
theorem divByZeroCheck_characterization (formula : String) :
    divByZeroCheck formula = true ↔
      ∃ pre ws post, (stripQuotedRefs formula).data = pre ++ '/' :: (ws ++ '0' :: post) ∧
        (∀ c ∈ ws, isJsSpace c = true) ∧
        (∀ d rest, post = d :: rest → d.isDigit = false) :=
  hasLiteralDivZero_iff (stripQuotedRefs formula).data

/-! ### Numeric range filter (C3) -/

/-- **C3** (counterexample): with `min = 0` set and `max` unset, the cell
`"-5"` parses to `-5 < 0` and therefore must be rejected according to the
claim, but the filter keeps it: a bound equal to `0` is falsy in
`(!min || value >= min)` and imposes no constraint. -/
theorem range_filter_zero_bound_counterexample :
    rangeKeep (some 0) none (some "-5") = true ∧
    parseFloatJs "-5" = JsNum.fin (-5) ∧ ((-5 : ℚ) < 0) := by
  refine ⟨by simp [rangeKeep, boundFalsy], ?_, by norm_num⟩
  simp +decide [parseFloatJs, parseFloatCore, parseExp, digitsToNat, isJsSpace]

/-- **C3** (amended): a numeric range filter keeps a record iff each bound
that is set to a non-zero value is satisfied inclusively by the parsed cell
(`≥ min`, `≤ max`, with the appropriate infinity passing and a non-parsing
cell failing); a bound that is unset (null) or set to `0` imposes no
constraint. -/
theorem rangeKeep_characterization (min max : Option ℚ) (cell : Option String) :
    rangeKeep min max cell = true ↔
      ((∀ m, min = some m → m ≠ 0 →
          parseFloatOpt cell = JsNum.posInf ∨ ∃ q, parseFloatOpt cell = JsNum.fin q ∧ m ≤ q) ∧
       (∀ m, max = some m → m ≠ 0 →
          parseFloatOpt cell = JsNum.negInf ∨ ∃ q, parseFloatOpt cell = JsNum.fin q ∧ q ≤ m)) := by
  cases min <;> cases max <;> cases h : parseFloatOpt cell <;>
    simp [rangeKeep, boundFalsy, JsNum.geNum, JsNum.leNum, h] <;>
    tauto

/-! ### Numeric equality filter (C8) -/

/-- **C8**: a numeric `equals` filter keeps a record iff its cell parses to
exactly the filter value (so NaN and the infinities never match, and a
non-parsing cell never satisfies the filter); on the rows
`price = "10" / "10.00" / "10.5"` the filter `price equals 10` keeps
exactly the first two. -/
theorem numeric_equals_exact :
    (∀ (v : ℚ) (cell : Option String), equalsKeep v cell = true ↔ parseFloatOpt cell = JsNum.fin v)
    ∧ filtersStage (computeColumnTypes ["price"]) [("price", ColFilter.equals 10)]
        [[("price", "10")], [("price", "10.00")], [("price", "10.5")]]
      = [[("price", "10")], [("price", "10.00")]] := by
  constructor
  · intro v cell
    cases h : parseFloatOpt cell <;> simp [equalsKeep, JsNum.eqNum, h]
  · have h1 : equalsKeep 10 (getCell [("price", "10")] "price") = true := by
      simp +decide [equalsKeep, getCell, parseFloatOpt, parseFloatJs, parseFloatCore,
        parseExp, digitsToNat, isJsSpace, JsNum.eqNum]
    have h2 : equalsKeep 10 (getCell [("price", "10.00")] "price") = true := by
      simp +decide [equalsKeep, getCell, parseFloatOpt, parseFloatJs, parseFloatCore,
        parseExp, digitsToNat, isJsSpace, JsNum.eqNum]
      norm_num
    have h3 : equalsKeep 10 (getCell [("price", "10.5")] "price") = false := by
      simp +decide [equalsKeep, getCell, parseFloatOpt, parseFloatJs, parseFloatCore,
        parseExp, digitsToNat, isJsSpace, JsNum.eqNum]
      norm_num
    have hty : lookupType (computeColumnTypes ["price"]) "price" = true := by decide
    simp only [filtersStage, List.foldl_cons, List.foldl_nil, applyOneFilter, hty, if_true]
    simp only [List.filter_cons, h1, h2, h3, List.filter_nil]
    rfl

/-! ### Category filter (C2) -/

/-- **C2** (counterexample): with an empty Selection Set the category stage
is skipped entirely, so a record whose canonical path `"A"` is not in the
(empty) Selection Set is nevertheless retained, contradicting the claimed
"retained iff member" equivalence. -/
theorem category_empty_selection_counterexample :
    categoryStage ["category"] (∅ : Finset String) [[("category", "A")]] = [[("category", "A")]]
    ∧ canonCategoryPath [("category", "A")] = "A"
    ∧ "A" ∉ (∅ : Finset String) := by
  refine ⟨?_, by decide, by simp⟩
  simp [categoryStage]

/-- **C2** (amended): when the dataset exposes a category column and the
Selection Set is non-empty, the category stage retains a record iff its
canonical category path is a member of the Selection Set (an empty category
yields the empty path, retained only if the empty path is selected); with
an empty Selection Set the stage is skipped and every record is retained. -/
theorem categoryStage_characterization (headers : List String) (sel : Finset String)
    (rows : List Record) :
    ((headers.any (fun h => normalizeHeader h == CATEGORY_COLUMN) = true → 0 < sel.card →
      ∀ r, r ∈ categoryStage headers sel rows ↔ r ∈ rows ∧ canonCategoryPath r ∈ sel))
    ∧ (sel.card = 0 → categoryStage headers sel rows = rows) := by
  constructor
  · intro hcat hsel r
    rw [categoryStage, if_pos ⟨hcat, hsel⟩, List.mem_filter]
    simp
  · intro hsel
    rw [categoryStage, if_neg]
    rintro ⟨-, h⟩
    omega

/-- Witness for the amended category-stage characterization: a concrete
header list, Selection Set `{"A"}` and a two-row record set. -/
theorem categoryStage_characterization_witness :
    ∀ r, r ∈ categoryStage ["category"] ({"A"} : Finset String)
        [[("category", "A")], [("category", "B")]] ↔
      r ∈ [[("category", "A")], [("category", "B")]] ∧
        canonCategoryPath r ∈ ({"A"} : Finset String) :=
  (categoryStage_characterization ["category"] {"A"}
      [[("category", "A")], [("category", "B")]]).1 (by decide) (by decide)

/-! ### Sentinel exclusion (C7) -/

/-- **C7**: with the hide-unknown-macros toggle on, no record whose
`calories` cell parses to the sentinel `100500` survives the pipeline,
whatever the other view parameters are. -/
theorem sentinel_exclusion (localeCmp : String → String → ℤ) (headers : List String)
    (data : List Record) (p : ViewParams) (hhide : p.hideUnknownMacros = true) :
    ∀ r ∈ processedData localeCmp headers data p,
      JsNum.eqNum (parseFloatOpt (getCell r "calories")) SENTINEL = false := by
  intro r hr
  unfold processedData at hr
  split at hr
  · simp at hr
  · rw [mem_sortStage] at hr
    have hr2 := mem_of_mem_filtersStage hr
    rw [hhide] at hr2
    unfold sentinelStage at hr2
    rw [if_pos rfl] at hr2
    have := (List.mem_filter.1 hr2).2
    simpa using this

/-- Concrete view parameters with only the sentinel toggle on. -/
def sentinelOnlyParams : ViewParams :=
  { selectedCategories := ∅, searchQuery := "", visibleColumns := [],
    hideUnknownMacros := true, filters := [], sortConfig := none,
    formulaFn := none, formulaSortDir := none }

/-- Witness for the sentinel-exclusion theorem on a concrete two-row data
set containing one sentinel row, instantiated at the surviving record. -/
theorem sentinel_exclusion_witness :
    JsNum.eqNum (parseFloatOpt (getCell [("calories", "7")] "calories")) SENTINEL = false :=
  sentinel_exclusion (fun _ _ => 0) ["calories"]
    [[("calories", "100500")], [("calories", "7")]] sentinelOnlyParams rfl
    [("calories", "7")]
    (by simp +decide [processedData, sentinelOnlyParams, categoryStage, searchStage,
      sentinelStage, filtersStage, sortStage, parseFloatOpt, parseFloatJs,
      parseFloatCore, parseExp, digitsToNat, isJsSpace, getCell, JsNum.eqNum,
      normalizeHeader, jsTrim, jsTrimChars, SENTINEL])

/-! ### Unknown-column formula rejection (C6) -/

/-- **C6**: a formula referencing a quoted column name that is not in the
header list is rejected before compilation — the state (and with it the
previously applied formula and the whole sort configuration) is unchanged,
the result does not depend on the compiler at all, and the outcome is the
unknown-column error. -/
theorem formula_unknown_column_rejected (headers : List String) (data : List Record)
    (compile : String → Option (Record → JsNum)) (st : SortFormState)
    (h : ∃ c ∈ extractQuotedRefs (jsTrim st.formulaInput), c ∉ headers) :
    (validateAndApplyFormula headers data compile st).1 = st ∧
    (∀ compile', validateAndApplyFormula headers data compile' st
      = validateAndApplyFormula headers data compile st) ∧
    ∃ cols, (validateAndApplyFormula headers data compile st).2
      = ApplyOutcome.errUnknownCols cols := by
  obtain ⟨c, hc, hnc⟩ := h
  have hne : jsTrim st.formulaInput ≠ "" := by
    intro he
    rw [he] at hc
    simp [extractQuotedRefs, quotedScan, quotedScanAux] at hc
  have hmem : c ∈ (extractQuotedRefs (jsTrim st.formulaInput)).filter
      (fun c => !headers.contains c) := by
    rw [List.mem_filter]
    exact ⟨hc, by simpa using hnc⟩
  have hmiss : (extractQuotedRefs (jsTrim st.formulaInput)).filter
      (fun c => !headers.contains c) ≠ [] := List.ne_nil_of_mem hmem
  refine ⟨?_, ?_, ?_⟩
  · unfold validateAndApplyFormula
    rw [if_neg hne, if_pos hmiss]
  · intro compile'
    unfold validateAndApplyFormula
    rw [if_neg hne, if_pos hmiss, if_neg hne, if_pos hmiss]
  · unfold validateAndApplyFormula
    rw [if_neg hne, if_pos hmiss]
    exact ⟨_, rfl⟩

/-- Witness for the unknown-column rejection: applying `"zzz"+1` against
headers `["a"]` with an applied formula and a column sort in place leaves
the state unchanged. -/
theorem formula_unknown_column_rejected_witness :
    ((validateAndApplyFormula ["a"] [] (fun _ => none)
        { formulaInput := "\"zzz\"+1", appliedFormula := "\"a\"",
          formulaSortDir := none, sortConfig := some ("price", Dir.asc) }).1
      = { formulaInput := "\"zzz\"+1", appliedFormula := "\"a\"",
          formulaSortDir := none, sortConfig := some ("price", Dir.asc) }) ∧
    (∀ compile', validateAndApplyFormula ["a"] [] compile'
        { formulaInput := "\"zzz\"+1", appliedFormula := "\"a\"",
          formulaSortDir := none, sortConfig := some ("price", Dir.asc) }
      = validateAndApplyFormula ["a"] [] (fun _ => none)
        { formulaInput := "\"zzz\"+1", appliedFormula := "\"a\"",
          formulaSortDir := none, sortConfig := some ("price", Dir.asc) }) ∧
    ∃ cols, (validateAndApplyFormula ["a"] [] (fun _ => none)
        { formulaInput := "\"zzz\"+1", appliedFormula := "\"a\"",
          formulaSortDir := none, sortConfig := some ("price", Dir.asc) }).2
      = ApplyOutcome.errUnknownCols cols :=
  formula_unknown_column_rejected ["a"] [] (fun _ => none) _ ⟨"zzz", by decide, by decide⟩

/-! ### Formula-sort comparator and non-finite values (C1) -/

/-- The compiled function for the formula `"a"/"b"` after the source's
substitution: `(parseFloat(row["a"])||0) / (parseFloat(row["b"])||0)`. -/
def formulaDivAB : Record → JsNum := fun r => (refValue r "a").div (refValue r "b")

/-- View parameters with only an ascending formula sort for `"a"/"b"`. -/
def formulaSortAscParams : ViewParams :=
  { selectedCategories := ∅, searchQuery := "", visibleColumns := [],
    hideUnknownMacros := false, filters := [], sortConfig := none,
    formulaFn := some formulaDivAB, formulaSortDir := some Dir.asc }

/-- **C1** (counterexample): under an ascending formula sort with
`"a"/"b"`, the row whose formula value is `Infinity` (`a = "5"`, `b` empty,
so `5 / 0 = Infinity`) is sorted *after* the row with value `1` — it sorts
as the largest value, not the smallest: the comparator coerces only NaN to
negative infinity and leaves positive infinity in place. -/
theorem formula_infinity_sorts_largest :
    formulaDivAB [("a", "5"), ("b", "")] = JsNum.posInf ∧
    processedData (fun _ _ => 0) ["a", "b"]
        [[("a", "5"), ("b", "")], [("a", "1"), ("b", "1")]] formulaSortAscParams
      = [[("a", "1"), ("b", "1")], [("a", "5"), ("b", "")]] := by
  constructor
  · simp +decide [formulaDivAB, refValue, parseFloatOpt, parseFloatJs, parseFloatCore,
      parseExp, digitsToNat, isJsSpace, getCell, JsNum.div]
  · simp +decide [processedData, formulaSortAscParams, categoryStage, searchStage,
      sentinelStage, filtersStage, sortStage, jsSortByCmp, List.mergeSort,
      formulaCmp, sortKey, formulaDivAB, refValue, parseFloatOpt, parseFloatJs,
      parseFloatCore, parseExp, digitsToNat, isJsSpace, getCell, normalizeHeader,
      jsTrim, jsTrimChars, JsNum.div, JsNum.sub, JsNum.isPos, JsNum.isNaN]

/-- The strict order on formula sort keys: `-∞ <` every rational `< +∞`
(NaN never occurs as a key and compares with nothing). -/
def extLt : JsNum → JsNum → Bool
  | JsNum.negInf, JsNum.fin _ => true
  | JsNum.negInf, JsNum.posInf => true
  | JsNum.fin a, JsNum.fin b => a < b
  | JsNum.fin _, JsNum.posInf => true
  | _, _ => false

/-- **C1** (amended): for every pair of records compared under a formula
sort, the comparator's sign is exactly the `extLt` comparison of the two
`sortKey` values, in both directions; `sortKey` maps NaN — and only NaN —
to negative infinity, which is the minimum of the order (so a NaN result
sorts as the smallest value regardless of direction), while a positive
infinity keeps its place as the maximum of the order (so an `Infinity`
result sorts as the largest value under ascending direction). -/
theorem formulaCmp_characterization (f : Record → JsNum) (a b : Record) :
    ((formulaCmp Dir.asc f a b).isNeg = extLt (sortKey (f a)) (sortKey (f b)) ∧
     (formulaCmp Dir.desc f a b).isNeg = extLt (sortKey (f b)) (sortKey (f a)) ∧
     (formulaCmp Dir.asc f a b).isPos = extLt (sortKey (f b)) (sortKey (f a)) ∧
     (formulaCmp Dir.desc f a b).isPos = extLt (sortKey (f a)) (sortKey (f b))) ∧
    sortKey JsNum.nan = JsNum.negInf ∧
    (∀ v, extLt v JsNum.negInf = false) ∧
    sortKey JsNum.posInf = JsNum.posInf ∧
    (∀ v, extLt JsNum.posInf v = false) := by
  refine ⟨?_, rfl, by intro v; cases v <;> rfl, rfl, by intro v; cases v <;> rfl⟩
  cases hfa : f a <;> cases hfb : f b <;>
    simp [formulaCmp, sortKey, JsNum.sub, JsNum.isNeg, JsNum.isPos, extLt,
      JsNum.isNaN, hfa, hfb, sub_neg, sub_pos]

/-! ### Sort-mode exclusivity and the column-sort cycle (C10) -/

/-- A reachable state with a column sort active and no applied formula. -/
def columnSortedState : SortFormState :=
  { formulaInput := "", appliedFormula := "", formulaSortDir := none,
    sortConfig := some ("price", Dir.asc) }

/-- **C10** (counterexample): from the initial state, one column-sort click
reaches a state with an active column sort and no applied formula; there a
formula-sort request is a no-op (guarded by `if (!appliedFormula.trim())
return`), so it does *not* clear the column sort configuration. -/
theorem formula_sort_request_noop_counterexample :
    SortReachable columnSortedState ∧
    applyFormulaSort Dir.asc columnSortedState = columnSortedState ∧
    columnSortedState.sortConfig = some ("price", Dir.asc) := by
  refine ⟨?_, by decide, rfl⟩
  have h : columnSortedState = handleSort "price" initialSortState := by decide
  rw [h]
  exact Relation.ReflTransGen.single (SortStep.sort "price" initialSortState)

theorem validate_fst_cases (headers : List String) (data : List Record)
    (compile : String → Option (Record → JsNum)) (st : SortFormState) :
    (validateAndApplyFormula headers data compile st).1 = st ∨
    (validateAndApplyFormula headers data compile st).1.formulaSortDir = none ∧
    (validateAndApplyFormula headers data compile st).1.sortConfig = st.sortConfig := by
  unfold validateAndApplyFormula
  simp only
  split_ifs
  · exact Or.inl rfl
  · exact Or.inl rfl
  · exact Or.inl rfl
  · split
    · exact Or.inl rfl
    · split
      · split_ifs
        · exact Or.inl rfl
        · exact Or.inr ⟨rfl, rfl⟩
      · exact Or.inr ⟨rfl, rfl⟩

theorem sortStep_preserves_exclusive {s t : SortFormState} (hstep : SortStep s t)
    (hs : s.sortConfig = none ∨ s.formulaSortDir = none) :
    t.sortConfig = none ∨ t.formulaSortDir = none := by
  cases hstep
  case sort column => exact Or.inr rfl
  case formulaSort dir =>
    unfold applyFormulaSort
    split
    · exact hs
    · exact Or.inl rfl
  case clearFormula => exact Or.inr rfl
  case reset => exact Or.inl rfl
  case editInput s1 => exact hs
  case historyApply f => exact hs
  case validate headers data compile =>
    rcases validate_fst_cases headers data compile s with heq | ⟨hdir, -⟩
    · rw [heq]; exact hs
    · exact Or.inr hdir

theorem reachable_exclusive (st : SortFormState) (h : SortReachable st) :
    st.sortConfig = none ∨ st.formulaSortDir = none := by
  induction h with
  | refl => exact Or.inl rfl
  | tail hsteps hstep ih => exact sortStep_preserves_exclusive hstep ih

/-- **C10** (amended): every reachable view state has at most one sort mode
active; a column-sort request clears the formula direction and cycles
ascending, descending, off on the same column (a different column restarts
ascending); a formula-sort request clears the column sort and sets the
direction *provided a formula is applied* — with no applied formula the
request leaves the state unchanged. -/
theorem sort_mode_exclusivity :
    (∀ st, SortReachable st → st.sortConfig = none ∨ st.formulaSortDir = none) ∧
    (∀ st column, (handleSort column st).formulaSortDir = none) ∧
    (∀ st column, st.sortConfig = none →
      (handleSort column st).sortConfig = some (column, Dir.asc)) ∧
    (∀ st column, st.sortConfig = some (column, Dir.asc) →
      (handleSort column st).sortConfig = some (column, Dir.desc)) ∧
    (∀ st column, st.sortConfig = some (column, Dir.desc) →
      (handleSort column st).sortConfig = none) ∧
    (∀ st column key dir, st.sortConfig = some (key, dir) → key ≠ column →
      (handleSort column st).sortConfig = some (column, Dir.asc)) ∧
    (∀ st dir, jsTrim st.appliedFormula ≠ "" →
      applyFormulaSort dir st
        = { st with formulaSortDir := some dir, sortConfig := none }) ∧
    (∀ st dir, jsTrim st.appliedFormula = "" → applyFormulaSort dir st = st) := by
  refine ⟨reachable_exclusive, ?_, ?_, ?_, ?_, ?_, ?_, ?_⟩
  · intro st column; rfl
  · intro st column h; simp [handleSort, h]
  · intro st column h; simp [handleSort, h]
  · intro st column h; simp [handleSort, h]
  · intro st column key dir h hne
    simp [handleSort, h, hne]
  · intro st dir h; simp [applyFormulaSort, h]
  · intro st dir h; simp [applyFormulaSort, h]

/-- Witness for the sort-mode exclusivity theorem: the invariant at the
initial state, and the ascending start of the cycle at a concrete column. -/
theorem sort_mode_exclusivity_witness :
    (initialSortState.sortConfig = none ∨ initialSortState.formulaSortDir = none) ∧
    (handleSort "price" initialSortState).sortConfig = some ("price", Dir.asc) :=
  ⟨sort_mode_exclusivity.1 initialSortState Relation.ReflTransGen.refl,
   sort_mode_exclusivity.2.2.1 initialSortState "price" rfl⟩

/-! ### Cascading category selection (C4) -/

theorem mem_range_drop_one (i n : ℕ) : i ∈ (List.range n).drop 1 ↔ 1 ≤ i ∧ i < n := by
  cases n with
  | zero => simp
  | succ m =>
    rw [List.range_succ_eq_map]
    simp only [List.drop_succ_cons, List.drop_zero, List.mem_map, List.mem_range]
    constructor
    · rintro ⟨j, hj, rfl⟩
      omega
    · rintro ⟨h1, h2⟩
      exact ⟨i - 1, by omega, by omega⟩

theorem properPrefixPaths_length_lt {a path : String} (h : a ∈ properPrefixPaths path) :
    a.data.length < path.data.length := by
  unfold properPrefixPaths at h
  simp only [List.mem_map] at h
  obtain ⟨i, hi, rfl⟩ := h
  rw [mem_range_drop_one] at hi
  have hlt := joinSep_take_length_lt '#' (splitChar '#' path.data) i hi.1 hi.2
  rw [joinSep_splitChar] at hlt
  exact hlt

/-- `q` is the canonical path of the node at `path` itself or of one of
its descendants: the paths extending `path` by a `'#'` and further text,
matching the invariant that a child's path is its parent's path plus `'#'`
plus its own name. -/
def DescendantPath (path q : String) : Prop :=
  q = path ∨ ∃ rest, q.data = path.data ++ '#' :: rest

theorem data_append_hash (path : String) : (path ++ "#").data = path.data ++ ['#'] := rfl

theorem descendants_filter_mem (flatAllPaths : List String) (path q : String) :
    (q ∈ flatAllPaths.filter
        (fun p => p == path || startsWithL (path ++ "#").data p.data)) ↔
      q ∈ flatAllPaths ∧ DescendantPath path q := by
  rw [List.mem_filter]
  apply and_congr_right
  intro _
  simp only [Bool.or_eq_true, beq_iff_eq, startsWithL_iff, DescendantPath,
    data_append_hash]
  apply or_congr Iff.rfl
  constructor
  · rintro ⟨t, ht⟩
    exact ⟨t, by simpa using ht⟩
  · rintro ⟨rest, hr⟩
    exact ⟨rest, by simpa using hr⟩

theorem properPrefix_not_descendant {a path : String}
    (h : a ∈ properPrefixPaths path) : ¬ DescendantPath path a := by
  have hlen := properPrefixPaths_length_lt h
  rintro (rfl | ⟨rest, hr⟩)
  · omega
  · have : a.data.length = path.data.length + 1 + rest.length := by
      rw [hr]; simp only [List.length_append, List.length_cons]; omega
    omega

/-- **C4**: toggling an unselected tree node's path yields a Selection Set
containing that path, every descendant path in the tree and every ancestor
path; toggling a selected node's path removes that path and every
descendant path in the tree while every other path — in particular every
ancestor — keeps its previous membership. -/
theorem togglePath_cascade (tree : List CategoryNode) (selected : Finset String)
    (path : String) (hmem : path ∈ collectPaths tree) :
    (path ∉ selected →
       (path ∈ togglePath (collectPaths tree) selected path ∧
        (∀ q ∈ collectPaths tree, DescendantPath path q →
          q ∈ togglePath (collectPaths tree) selected path) ∧
        (∀ a ∈ properPrefixPaths path, a ∈ togglePath (collectPaths tree) selected path) ∧
        (∀ q ∈ selected, q ∈ togglePath (collectPaths tree) selected path)))
    ∧ (path ∈ selected →
       (path ∉ togglePath (collectPaths tree) selected path ∧
        (∀ q ∈ collectPaths tree, DescendantPath path q →
          q ∉ togglePath (collectPaths tree) selected path) ∧
        (∀ q, ¬(q ∈ collectPaths tree ∧ DescendantPath path q) →
          (q ∈ togglePath (collectPaths tree) selected path ↔ q ∈ selected)) ∧
        (∀ a ∈ properPrefixPaths path,
          (a ∈ togglePath (collectPaths tree) selected path ↔ a ∈ selected)))) := by
  constructor
  · intro hsel
    unfold togglePath
    simp only
    rw [if_neg hsel]
    simp only [mem_foldl_insert]
    refine ⟨?_, ?_, ?_, ?_⟩
    · exact Or.inl (Or.inr ((descendants_filter_mem _ path path).2 ⟨hmem, Or.inl rfl⟩))
    · intro q hq hdesc
      exact Or.inl (Or.inr ((descendants_filter_mem _ path q).2 ⟨hq, hdesc⟩))
    · intro a ha
      exact Or.inr ha
    · intro q hq
      exact Or.inl (Or.inl hq)
  · intro hsel
    unfold togglePath
    simp only
    rw [if_pos hsel]
    have hkey : ∀ q, q ∈ ((collectPaths tree).filter
        (fun p => p == path || startsWithL (path ++ "#").data p.data)).foldl
          (fun s d => s.erase d) selected ↔
        q ∈ selected ∧ ¬(q ∈ collectPaths tree ∧ DescendantPath path q) := by
      intro q
      rw [mem_foldl_erase, descendants_filter_mem]
    refine ⟨?_, ?_, ?_, ?_⟩
    · intro hcontra
      exact ((hkey path).1 hcontra).2 ⟨hmem, Or.inl rfl⟩
    · intro q hq hdesc hcontra
      exact ((hkey q).1 hcontra).2 ⟨hq, hdesc⟩
    · intro q hq
      rw [hkey q]
      constructor
      · exact fun h => h.1
      · exact fun h => ⟨h, hq⟩
    · intro a ha
      rw [hkey a]
      constructor
      · exact fun h => h.1
      · intro h
        refine ⟨h, ?_⟩
        rintro ⟨-, hdesc⟩
        exact properPrefix_not_descendant ha hdesc

/-- A small category forest used by the cascade witness. -/
def exampleTree : List CategoryNode :=
  [CategoryNode.mk "Drinks" "Drinks" [CategoryNode.mk "Coffee" "Drinks#Coffee" []],
   CategoryNode.mk "Snacks" "Snacks" []]

/-- Witness for the cascade theorem at the concrete forest and the node
`"Drinks"`. -/
theorem togglePath_cascade_witness :
    ("Drinks" ∉ (∅ : Finset String) →
       ("Drinks" ∈ togglePath (collectPaths exampleTree) ∅ "Drinks" ∧
        (∀ q ∈ collectPaths exampleTree, DescendantPath "Drinks" q →
          q ∈ togglePath (collectPaths exampleTree) ∅ "Drinks") ∧
        (∀ a ∈ properPrefixPaths "Drinks", a ∈ togglePath (collectPaths exampleTree) ∅ "Drinks") ∧
        (∀ q ∈ (∅ : Finset String), q ∈ togglePath (collectPaths exampleTree) ∅ "Drinks")))
    ∧ ("Drinks" ∈ (∅ : Finset String) →
       ("Drinks" ∉ togglePath (collectPaths exampleTree) ∅ "Drinks" ∧
        (∀ q ∈ collectPaths exampleTree, DescendantPath "Drinks" q →
          q ∉ togglePath (collectPaths exampleTree) ∅ "Drinks") ∧
        (∀ q, ¬(q ∈ collectPaths exampleTree ∧ DescendantPath "Drinks" q) →
          (q ∈ togglePath (collectPaths exampleTree) ∅ "Drinks" ↔ q ∈ (∅ : Finset String))) ∧
        (∀ a ∈ properPrefixPaths "Drinks",
          (a ∈ togglePath (collectPaths exampleTree) ∅ "Drinks" ↔ a ∈ (∅ : Finset String))))) :=
  togglePath_cascade exampleTree ∅ "Drinks" (by simp [exampleTree, collectPaths])


end MealMosaic
